import Mathlib

/-!
Verification of the snippet scanner and editor-command glue of the
kirby-snippet-opener extension (src/src/extension.ts).

The scanner is the regular expression
  snippet\(\s*(['"])([^'"]+)\1[\s\S]*?\)   (global flag)
applied through `RegExp.exec` in a while loop (provideDocumentLinks).
We embed the pattern as a deterministic matcher over `List Char`:

* the literal `snippet(` must occur verbatim (the pattern is unanchored,
  so a match may start anywhere in the text);
* `\s*` is a maximal run of JavaScript whitespace (greedy, and since no
  whitespace character is a quote, backtracking can never extend a match,
  so maximal munch is exact);
* `(['"])` captures one quote character;
* `([^'"]+)` is a maximal non-empty run of non-quote characters followed by
  the captured quote (`\1`); shrinking the greedy run would put a non-quote
  character where `\1` must match, so again maximal munch is exact;
* `[\s\S]*?\)` lazily skips to the first `)` at or after the current point.

`exec` with the `g` flag keeps a `lastIndex` cursor: each call returns the
leftmost match starting at or after the cursor and moves the cursor to the
end of that match.  `execLoop` below is that loop (with explicit fuel, which
`execLoop_eq_scanAux` proves irrelevant once it is at least the remaining
text length plus one).
-/

namespace KirbySnippetOpener

/-- The single-quote character. -/
def sq : Char := '\''

/-- The double-quote character. -/
def dq : Char := '"'

/-- The character class `['"]` of the pattern. -/
def isQuote (c : Char) : Bool := c == sq || c == dq

/-- JavaScript regex whitespace class, by code point: TAB LF VT FF CR
SPACE NBSP OGHAM-SPACE-MARK, U+2000-U+200A, LINE-SEP PARA-SEP NNBSP MMSP
IDEOGRAPHIC-SPACE ZWNBSP. -/
def jsSpace (c : Char) : Bool :=
  c.toNat == 0x20 || c.toNat == 0x09 || c.toNat == 0x0A || c.toNat == 0x0D ||
  c.toNat == 0x0B || c.toNat == 0x0C || c.toNat == 0xA0 || c.toNat == 0x1680 ||
  (0x2000 <= c.toNat && c.toNat <= 0x200A) || c.toNat == 0x2028 || c.toNat == 0x2029 ||
  c.toNat == 0x202F || c.toNat == 0x205F || c.toNat == 0x3000 || c.toNat == 0xFEFF

/-- The literal prefix `snippet(` of the pattern. -/
def snippetLit : List Char := ['s', 'n', 'i', 'p', 'p', 'e', 't', '(']

/-- Index of the first character satisfying `p` (JavaScript `indexOf`, and
the lazy `[\s\S]*?` search for the closing parenthesis). -/
def firstIdx (p : Char → Bool) : List Char → Option Nat
  | [] => none
  | c :: rest => if p c then some 0 else (firstIdx p rest).map (· + 1)

/-- One regex match: the spec's transient Match value — captured quote
character (group 1), captured name (group 2), start offset of the whole
match, and length of the whole match (`match[0].length`). -/
structure SMatch where
  quote : Char
  name : List Char
  start : Nat
  len : Nat
deriving DecidableEq, Repr

/-- The part of the pattern after the literal `snippet(`, applied to the
text that follows that literal: `\s*(['"])([^'"]+)\1[\s\S]*?\)`.  Returns
group 1, group 2 and the total match length (including the 8 literal
characters). -/
def matchAfter (r : List Char) : Option (Char × List Char × Nat) :=
  match r.dropWhile jsSpace with
  | [] => none
  | q :: rest3 =>
    if isQuote q then
      match rest3.dropWhile (fun c => ! isQuote c) with
      | [] => none
      | q2 :: rest5 =>
        if rest3.takeWhile (fun c => ! isQuote c) = [] then none
        else if q2 = q then
          match firstIdx (fun c => c == ')') rest5 with
          | some k =>
            some (q, rest3.takeWhile (fun c => ! isQuote c),
              8 + (r.takeWhile jsSpace).length + 1 +
                (rest3.takeWhile (fun c => ! isQuote c)).length + 1 + k + 1)
          | none => none
        else none
    else none

/-- Attempt to match the whole pattern with the match starting exactly at
the head of `l`. -/
def matchHere (l : List Char) : Option (Char × List Char × Nat) :=
  if l.take 8 = snippetLit then matchAfter (l.drop 8) else none

/-- The leftmost match in `l`, where `pos` is the absolute offset of the
head of `l` in the document (the regex engine slides the start position
forward one character at a time until the pattern matches). -/
def findMatch : List Char → Nat → Option SMatch
  | [], _ => none
  | c :: rest, pos =>
    match matchHere (c :: rest) with
    | some (q, n, len) => some ⟨q, n, pos, len⟩
    | none => findMatch rest (pos + 1)

/-- `regex.exec(text)` with the regex's `lastIndex` cursor at `i`: the
leftmost match starting at or after offset `i`. -/
def execFrom (t : List Char) (i : Nat) : Option SMatch :=
  findMatch (t.drop i) i

/-- The provider's `while ((match = regex.exec(text)) !== null)` loop:
`li` is the regex object's `lastIndex`, and each found match moves it to
the end of that match.  `fuel` bounds the iteration count (the loop in the
source terminates because `lastIndex` strictly increases). -/
def execLoop (t : List Char) : Nat → Nat → List SMatch
  | _, 0 => []
  | li, fuel + 1 =>
    match execFrom t li with
    | some m => m :: execLoop t (m.start + m.len) fuel
    | none => []

/-- Scanning a document: a fresh regex from `getSnippetRegex()` has
`lastIndex = 0`, and `t.length + 1` fuel is enough for the loop to run to
completion. -/
def scanJs (t : List Char) : List SMatch :=
  execLoop t 0 (t.length + 1)

/-- The stateless structural scanner: walk the text left to right; on a
match, emit it and resume right after it, otherwise slide one character.
`execLoop_eq_scanAux` proves the stateful exec loop computes this pure
function of the text. -/
def scanAux : List Char → Nat → List SMatch
  | [], _ => []
  | c :: rest, pos =>
    match matchHere (c :: rest) with
    | some (q, n, len) => ⟨q, n, pos, len⟩ :: scanAux (rest.drop (len - 1)) (pos + len)
    | none => scanAux rest (pos + 1)
termination_by l _ => l.length
decreasing_by
  · simp only [List.length_drop, List.length_cons]
    omega
  · simp only [List.length_cons]
    omega

example : scanJs (snippetLit ++ [sq, 'a', sq, ')']) = [⟨sq, ['a'], 0, 12⟩] := by decide

example :
    scanJs (snippetLit ++ [sq, 'a', sq, ')', ';', ' '] ++ snippetLit ++ [dq, 'b', dq, ')']) =
      [⟨sq, ['a'], 0, 12⟩, ⟨dq, ['b'], 14, 12⟩] := by decide

example : scanJs (['s', 'n', 'i', 'p', 'p', 'e', 't', ' ', '('] ++ [sq, 'x', sq, ')']) = [] := by
  decide

example : scanJs (['m', 'y'] ++ snippetLit ++ [sq, 'x', sq, ')']) = [⟨sq, ['x'], 2, 12⟩] := by
  decide

example : scanJs (snippetLit ++ [sq, sq, ')']) = [] := by decide

example : scanJs (snippetLit ++ [dq, 'x', sq, ')']) = [] := by decide

example : scanJs (snippetLit ++ ['t', 'e', 's', 't', ')']) = [] := by decide

example : scanJs (snippetLit ++ [sq, 'u', 'n', 'c', 'l', 'o', 's', 'e', 'd']) = [] := by decide

example :
    scanJs (snippetLit ++ [' ', ' ', sq, 'a', 'b', sq, ',', 'x', ')']) =
      [⟨sq, ['a', 'b'], 0, 17⟩] := by decide

/-! ## The extension glue around the scanner

URIs are modelled as their path segments (`vscode.Uri.joinPath` appends
segments), the configuration as the one option the code reads
(`kirbysnippetopener.snippetPath`), and the host state as the workspace
folder list.  JavaScript truthiness on the configured string means both an
unset option and the empty string count as "not configured". -/

/-- A file URI as its path segments. -/
abbrev Uri := List String

/-- The host state the code reads: `vscode.workspace.workspaceFolders` and
the `kirbysnippetopener.snippetPath` configuration value. -/
structure Env where
  workspaceFolders : List Uri
  snippetPath : Option String
deriving DecidableEq

/-- JavaScript truthiness of an optional string (`!config.snippetPath`
is true for `undefined` and for the empty string). -/
def truthyStr : Option String → Bool
  | none => false
  | some s => !(s == "")

/-- `getSnippetUri`: null unless a first workspace folder exists and a
(truthy) snippet path is configured; otherwise
`joinPath(workspaceFolder.uri, snippetPath, snippetName + ".php")`. -/
def getSnippetUri (env : Env) (snippetName : String) : Option Uri :=
  match env.workspaceFolders.head?, env.snippetPath with
  | some wf, some sp =>
    if sp = "" then none else some (wf ++ [sp, snippetName ++ ".php"])
  | _, _ => none

/-- `getSnippetNameRange`: positions are document offsets here
(`positionAt` is strictly monotone, so offsets determine the range).  The
start is `match.index + match[0].indexOf(quoteChar) + 1` — JavaScript's
`indexOf` returns -1 when absent, making the `+ 1` yield offset 0 inside
the match — and the end adds the name's length. -/
def getSnippetNameRange (text : List Char) (m : SMatch) : Nat × Nat :=
  match firstIdx (fun c => c == m.quote) ((text.drop m.start).take m.len) with
  | some i => (m.start + i + 1, m.start + i + 1 + m.name.length)
  | none => (m.start, m.start + m.name.length)

/-- A document link: its range (as offsets), target URI and tooltip. -/
structure DocumentLink where
  range : Nat × Nat
  target : Uri
  tooltip : String
deriving DecidableEq

/-- `createDocumentLink`: null when `getSnippetUri` is null, otherwise the
link at the name's range with the tooltip `Open snippet: <name>.php`. -/
def createDocumentLink (env : Env) (text : List Char) (m : SMatch) : Option DocumentLink :=
  match getSnippetUri env (String.mk m.name) with
  | none => none
  | some uri =>
    some ⟨getSnippetNameRange text m, uri, "Open snippet: " ++ String.mk m.name ++ ".php"⟩

/-- `provideDocumentLinks`: scan the document text and keep the non-null
links, in scan order. -/
def provideDocumentLinks (env : Env) (text : List Char) : List DocumentLink :=
  (scanJs text).filterMap (createDocumentLink env text)

/-- The observable effects of the `kirbysnippetopener.openSnippet`
command. -/
inductive OpenEffect where
  | attemptedOpen (uri : Uri)
  | openedDocument (uri : Uri)
  | showedErrorMessage (msg : String)
deriving DecidableEq

/-- The `openSnippet` command body: return silently when `getSnippetUri`
is null; otherwise try to open the document once, and on failure show the
error message (the try/catch swallows the failure, so the command always
completes).  `openSucceeds` abstracts whether `openTextDocument`
succeeds. -/
def openSnippetCommand (env : Env) (snippetName : String) (openSucceeds : Bool) :
    List OpenEffect :=
  match getSnippetUri env snippetName with
  | none => []
  | some uri =>
    if openSucceeds then
      [.attemptedOpen uri, .openedDocument uri]
    else
      [.attemptedOpen uri,
        .showedErrorMessage ("Snippet " ++ snippetName ++ ".php konnte nicht gefunden werden.")]

/-- An open text editor: its document text and the selection offsets. -/
structure Editor where
  text : List Char
  selStart : Nat
  selStop : Nat
deriving DecidableEq

/-- `editor.document.getText(editor.selection)`. -/
def selectedText (ed : Editor) : List Char :=
  (ed.text.drop ed.selStart).take (ed.selStop - ed.selStart)

/-- What `createSnippetFile` returns and shows: success flag and the
messages shown.  `writeOk` abstracts whether `mkdirSync`/`writeFileSync`
succeed, `errMsg` the thrown error's message. -/
structure CreateFileResult where
  ok : Bool
  messages : List String
deriving DecidableEq

/-- `createSnippetFile`: reject (with a message) when the snippet path is
not configured, then when no workspace folder exists; then write once and
report success or the write error. -/
def createSnippetFile (env : Env) (snippetPath : String) (writeOk : Bool) (errMsg : String) :
    CreateFileResult :=
  if truthyStr env.snippetPath = false then
    ⟨false, ["You must set a snippet path in VS Code configuration."]⟩
  else
    match env.workspaceFolders.head? with
    | none => ⟨false, ["No workspace folder found."]⟩
    | some _ =>
      if writeOk then ⟨true, ["Snippet created at " ++ snippetPath]⟩
      else ⟨false, ["Error creating snippet: " ++ errMsg]⟩

/-- `replaceSelectionWithSnippetCall`'s cleaning of the entered path
(over the path's characters): strip one leading `snippets/` and one
trailing `.php`. -/
def cleanSnippetPath (p : List Char) : List Char :=
  let p1 :=
    if (['s', 'n', 'i', 'p', 'p', 'e', 't', 's', '/']).isPrefixOf p then p.drop 9 else p
  if (['.', 'p', 'h', 'p']).isSuffixOf p1 then p1.take (p1.length - 4) else p1

/-- The replacement text `snippet('<cleaned path>')`. -/
def snippetCallText (p : String) : List Char :=
  snippetLit ++ [sq] ++ cleanSnippetPath p.data ++ [sq, ')']

/-- The observable outcome of the `createSnippetFromSelection` command:
messages shown, the document text afterwards (none when no editor
existed), and whether the snippet file was created. -/
structure CreateOutcome where
  messages : List String
  finalDoc : Option (List Char)
  fileCreated : Bool
deriving DecidableEq

/-- The `createSnippetFromSelection` command body.  `promptResult` is what
`showInputBox` resolves to (`none` = cancelled; the code also returns
silently on an empty entry, `!snippetPath`).  The selection is replaced
with the `snippet('...')` call only when `createSnippetFile` reported
success. -/
def createSnippetFromSelectionCommand (env : Env) (editor : Option Editor)
    (promptResult : Option String) (writeOk : Bool) (errMsg : String) : CreateOutcome :=
  match editor with
  | none => ⟨["No active editor found."], none, false⟩
  | some ed =>
    if selectedText ed = [] then ⟨["No text selected."], some ed.text, false⟩
    else
      match promptResult with
      | none => ⟨[], some ed.text, false⟩
      | some p =>
        if p = "" then ⟨[], some ed.text, false⟩
        else
          match createSnippetFile env p writeOk errMsg with
          | ⟨true, msgs⟩ =>
            ⟨msgs, some (ed.text.take ed.selStart ++ snippetCallText p ++ ed.text.drop ed.selStop),
              true⟩
          | ⟨false, msgs⟩ => ⟨msgs, some ed.text, false⟩

example :
    provideDocumentLinks ⟨[["root"]], some "snippets"⟩ (snippetLit ++ [sq, 'a', sq, ')']) =
      [⟨(9, 10), ["root", "snippets", "a.php"], "Open snippet: a.php"⟩] := by decide

example : openSnippetCommand ⟨[], some "snippets"⟩ "a" false = [] := by decide

example :
    openSnippetCommand ⟨[["root"]], some "snippets"⟩ "a" false =
      [.attemptedOpen ["root", "snippets", "a.php"],
        .showedErrorMessage "Snippet a.php konnte nicht gefunden werden."] := by decide

example :
    createSnippetFromSelectionCommand ⟨[["root"]], none⟩ (some ⟨['x', 'y'], 0, 2⟩) none true "e" =
      ⟨[], some ['x', 'y'], false⟩ := by decide

example :
    (createSnippetFromSelectionCommand ⟨[["root"]], some "snippets"⟩ (some ⟨['x', 'y'], 0, 1⟩)
        (some "card") true "e").finalDoc =
      some (snippetCallText "card" ++ ['y']) := by decide

/-! ## Facts about the character classes -/

theorem isQuote_elim {q : Char} (h : isQuote q = true) : q = sq ∨ q = dq := by
  simpa only [isQuote, Bool.or_eq_true, beq_iff_eq] using h

theorem jsSpace_of_isQuote {q : Char} (h : isQuote q = true) : jsSpace q = false := by
  rcases isQuote_elim h with rfl | rfl <;> decide

theorem snippetLit_no_quote {q : Char} (hq : isQuote q = true) :
    ∀ c ∈ snippetLit, (c == q) = false := by
  rcases isQuote_elim hq with rfl | rfl <;>
    · intro c hc
      fin_cases hc <;> decide

/-! ## takeWhile, dropWhile and firstIdx on split lists -/

theorem takeWhile_append_eq {p : Char → Bool} {xs : List Char} (ys : List Char)
    (hx : ∀ c ∈ xs, p c = true) {y : Char} (hy : p y = false) :
    (xs ++ y :: ys).takeWhile p = xs := by
  induction xs with
  | nil => simp [List.takeWhile_cons, hy]
  | cons a as ih =>
    have ha : p a = true := hx a (by simp)
    simp only [List.cons_append, List.takeWhile_cons, ha, if_true]
    rw [ih (fun c hc => hx c (by simp [hc]))]

theorem dropWhile_append_eq {p : Char → Bool} {xs : List Char} (ys : List Char)
    (hx : ∀ c ∈ xs, p c = true) {y : Char} (hy : p y = false) :
    (xs ++ y :: ys).dropWhile p = y :: ys := by
  induction xs with
  | nil => simp [List.dropWhile_cons, hy]
  | cons a as ih =>
    have ha : p a = true := hx a (by simp)
    simp only [List.cons_append, List.dropWhile_cons, ha, if_true]
    exact ih (fun c hc => hx c (by simp [hc]))

theorem firstIdx_append {p : Char → Bool} {xs : List Char} (ys : List Char)
    (hx : ∀ c ∈ xs, p c = false) :
    firstIdx p (xs ++ ys) = (firstIdx p ys).map (· + xs.length) := by
  induction xs with
  | nil =>
    cases h : firstIdx p ys <;> simp [h]
  | cons a as ih =>
    have ha : p a = false := hx a (by simp)
    have ih' := ih (fun c hc => hx c (by simp [hc]))
    cases h : firstIdx p ys with
    | none => simp [firstIdx, ha, ih', h]
    | some k =>
      simp only [List.cons_append, firstIdx, ha, Bool.false_eq_true, if_false,
        List.append_eq, ih', h, Option.map_some', List.length_cons, Option.some.injEq]
      omega

theorem firstIdx_cons_self {p : Char → Bool} {c : Char} (h : p c = true) (l : List Char) :
    firstIdx p (c :: l) = some 0 := by
  simp [firstIdx, h]

theorem firstIdx_lt_length {p : Char → Bool} :
    ∀ {l : List Char} {k : Nat}, firstIdx p l = some k → k < l.length := by
  intro l
  induction l with
  | nil => intro k h; simp [firstIdx] at h
  | cons c rest ih =>
    intro k h
    simp only [firstIdx] at h
    by_cases hc : p c = true
    · simp only [hc, if_true, Option.some.injEq] at h
      simp [← h]
    · simp only [hc, Bool.false_eq_true, if_false] at h
      cases hr : firstIdx p rest with
      | none => rw [hr] at h; simp at h
      | some j =>
        rw [hr] at h
        simp only [Option.map_some', Option.some.injEq] at h
        have := ih hr
        simp only [List.length_cons]
        omega

/-! ## Inverting and computing the matcher -/

theorem matchAfter_eq {ws X tail : List Char} {q : Char} {k : Nat}
    (hws : ∀ c ∈ ws, jsSpace c = true) (hq : isQuote q = true) (hX : X ≠ [])
    (hXq : ∀ c ∈ X, isQuote c = false)
    (hk : firstIdx (fun c => c == ')') tail = some k) :
    matchAfter (ws ++ q :: (X ++ q :: tail)) =
      some (q, X, 8 + ws.length + 1 + X.length + 1 + k + 1) := by
  have hqs : jsSpace q = false := jsSpace_of_isQuote hq
  have hdw : (ws ++ q :: (X ++ q :: tail)).dropWhile jsSpace = q :: (X ++ q :: tail) :=
    dropWhile_append_eq _ hws hqs
  have htw : (ws ++ q :: (X ++ q :: tail)).takeWhile jsSpace = ws :=
    takeWhile_append_eq _ hws hqs
  have hXq' : ∀ c ∈ X, (! isQuote c) = true := fun c hc => by simp [hXq c hc]
  have hq' : (! isQuote q) = false := by simp [hq]
  have hdw2 : (X ++ q :: tail).dropWhile (fun c => ! isQuote c) = q :: tail :=
    dropWhile_append_eq _ hXq' hq'
  have htw2 : (X ++ q :: tail).takeWhile (fun c => ! isQuote c) = X :=
    takeWhile_append_eq _ hXq' hq'
  unfold matchAfter
  rw [hdw]
  simp only [htw, hdw2, htw2, hq, if_true, hk]
  simp [hX]

theorem matchHere_append (rest : List Char) :
    matchHere (snippetLit ++ rest) = matchAfter rest := by
  unfold matchHere
  rw [List.take_left' (by rfl), List.drop_left' (by rfl), if_pos rfl]

theorem matchAfter_inv {r : List Char} {q : Char} {n : List Char} {len : Nat}
    (h : matchAfter r = some (q, n, len)) :
    ∃ ws tail k,
      r = ws ++ q :: (n ++ q :: tail) ∧ (∀ c ∈ ws, jsSpace c = true) ∧
        isQuote q = true ∧ n ≠ [] ∧ (∀ c ∈ n, isQuote c = false) ∧
        firstIdx (fun c => c == ')') tail = some k ∧
        len = 8 + ws.length + 1 + n.length + 1 + k + 1 := by
  unfold matchAfter at h
  split at h
  · exact absurd h (by simp)
  next q' rest3 heq =>
    split at h
    case isFalse => exact absurd h (by simp)
    case isTrue hq =>
      split at h
      · exact absurd h (by simp)
      next q2 rest5 heq2 =>
        split at h
        case isTrue => exact absurd h (by simp)
        case isFalse hne =>
          split at h
          case isFalse => exact absurd h (by simp)
          case isTrue hq2 =>
            split at h
            case h_2 => exact absurd h (by simp)
            case h_1 k hk =>
              simp only [Option.some.injEq, Prod.mk.injEq] at h
              obtain ⟨rfl, rfl, rfl⟩ := h
              subst hq2
              refine ⟨r.takeWhile jsSpace, rest5, k, ?_, ?_, hq, hne, ?_, hk, ?_⟩
              · conv_lhs => rw [← List.takeWhile_append_dropWhile jsSpace r]
                rw [heq]
                congr 1
                conv_lhs =>
                  rw [← List.takeWhile_append_dropWhile (fun c => ! isQuote c) rest3, heq2]
              · exact fun c hc => List.mem_takeWhile_imp hc
              · intro c hc
                have := List.mem_takeWhile_imp hc
                simpa using this
              · rfl

theorem matchHere_inv {l : List Char} {q : Char} {n : List Char} {len : Nat}
    (h : matchHere l = some (q, n, len)) :
    ∃ ws tail k,
      l = snippetLit ++ (ws ++ q :: (n ++ q :: tail)) ∧ (∀ c ∈ ws, jsSpace c = true) ∧
        isQuote q = true ∧ n ≠ [] ∧ (∀ c ∈ n, isQuote c = false) ∧
        firstIdx (fun c => c == ')') tail = some k ∧
        len = 8 + ws.length + 1 + n.length + 1 + k + 1 := by
  unfold matchHere at h
  split at h
  case isFalse => exact absurd h (by simp)
  case isTrue htake =>
    obtain ⟨ws, tail, k, hr, hws, hq, hne, hnq, hk, hlen⟩ := matchAfter_inv h
    refine ⟨ws, tail, k, ?_, hws, hq, hne, hnq, hk, hlen⟩
    conv_lhs => rw [← List.take_append_drop 8 l]
    rw [htake, hr]

theorem matchHere_nil : matchHere [] = none := by decide

theorem matchHere_len_pos {l : List Char} {q : Char} {n : List Char} {len : Nat}
    (h : matchHere l = some (q, n, len)) : 0 < len := by
  obtain ⟨ws, tail, k, -, -, -, -, -, -, hlen⟩ := matchHere_inv h
  omega

/-! ## The search and the exec loop -/

theorem findMatch_of_matchHere {l : List Char} {q : Char} {n : List Char} {len : Nat}
    (pos : Nat) (h : matchHere l = some (q, n, len)) :
    findMatch l pos = some ⟨q, n, pos, len⟩ := by
  cases l with
  | nil => rw [matchHere_nil] at h; exact absurd h (by simp)
  | cons c rest => simp [findMatch, h]

theorem findMatch_inv : ∀ {l : List Char} {pos : Nat} {m : SMatch},
    findMatch l pos = some m →
    ∃ d, m.start = pos + d ∧ matchHere (l.drop d) = some (m.quote, m.name, m.len) := by
  intro l
  induction l with
  | nil => intro pos m h; simp [findMatch] at h
  | cons c rest ih =>
    intro pos m h
    rw [findMatch] at h
    cases hm : matchHere (c :: rest) with
    | some v =>
      obtain ⟨q, n, len⟩ := v
      rw [hm] at h
      simp only [Option.some.injEq] at h
      exact ⟨0, by simp [← h], by simpa [← h] using hm⟩
    | none =>
      rw [hm] at h
      obtain ⟨d, hd, hmm⟩ := ih h
      exact ⟨d + 1, by omega, by simpa [List.drop_succ_cons] using hmm⟩

theorem findMatch_start_ge {l : List Char} {pos : Nat} {m : SMatch}
    (h : findMatch l pos = some m) : pos ≤ m.start := by
  obtain ⟨d, hd, -⟩ := findMatch_inv h
  omega

theorem findMatch_len_pos {l : List Char} {pos : Nat} {m : SMatch}
    (h : findMatch l pos = some m) : 0 < m.len := by
  obtain ⟨d, -, hm⟩ := findMatch_inv h
  exact matchHere_len_pos hm

theorem execFrom_inv {t : List Char} {i : Nat} {m : SMatch} (h : execFrom t i = some m) :
    i ≤ m.start ∧ matchHere (t.drop m.start) = some (m.quote, m.name, m.len) := by
  obtain ⟨d, hd, hm⟩ := findMatch_inv h
  refine ⟨by omega, ?_⟩
  rw [List.drop_drop] at hm
  rwa [← hd] at hm

theorem execLoop_mem {t : List Char} :
    ∀ {fuel li : Nat} {m : SMatch}, m ∈ execLoop t li fuel →
      li ≤ m.start ∧ matchHere (t.drop m.start) = some (m.quote, m.name, m.len) := by
  intro fuel
  induction fuel with
  | zero => intro li m h; simp [execLoop] at h
  | succ f ih =>
    intro li m h
    rw [execLoop] at h
    cases he : execFrom t li with
    | none => rw [he] at h; simp at h
    | some m0 =>
      rw [he] at h
      obtain ⟨h1, h2⟩ := execFrom_inv he
      rcases List.mem_cons.mp h with rfl | htail
      · exact ⟨h1, h2⟩
      · have h3 := ih htail
        have h4 : 0 < m0.len := findMatch_len_pos he
        exact ⟨by omega, h3.2⟩

theorem execLoop_pairwise (t : List Char) :
    ∀ (fuel li : Nat),
      List.Pairwise (fun a b => a.start + a.len ≤ b.start ∧ a.start < b.start)
        (execLoop t li fuel) := by
  intro fuel
  induction fuel with
  | zero => intro li; simp [execLoop]
  | succ f ih =>
    intro li
    rw [execLoop]
    cases he : execFrom t li with
    | none => simp
    | some m0 =>
      refine List.Pairwise.cons ?_ (ih (m0.start + m0.len))
      intro b hb
      have hble := (execLoop_mem hb).1
      have h4 : 0 < m0.len := findMatch_len_pos he
      exact ⟨hble, by omega⟩

theorem scanJs_mem {t : List Char} {m : SMatch} (h : m ∈ scanJs t) :
    matchHere (t.drop m.start) = some (m.quote, m.name, m.len) :=
  (execLoop_mem h).2

/-! ## The exec loop computes a pure function of the text -/

theorem scanAux_eq (l : List Char) : ∀ pos : Nat,
    scanAux l pos =
      match findMatch l pos with
      | none => []
      | some m => m :: scanAux (l.drop (m.start + m.len - pos)) (m.start + m.len) := by
  induction l with
  | nil => intro pos; simp [scanAux, findMatch]
  | cons c rest ih =>
    intro pos
    cases hm : matchHere (c :: rest) with
    | some v =>
      obtain ⟨q, n, len⟩ := v
      rw [scanAux, hm, findMatch, hm]
      simp only []
      have hlen : 0 < len := matchHere_len_pos hm
      have h1 : pos + len - pos = len := by omega
      rw [h1]
      cases len with
      | zero => omega
      | succ k => simp [List.drop_succ_cons]
    | none =>
      rw [scanAux, hm, findMatch, hm]
      simp only []
      rw [ih (pos + 1)]
      cases hf : findMatch rest (pos + 1) with
      | none => simp
      | some m =>
        simp only []
        have h1 : pos + 1 ≤ m.start := findMatch_start_ge hf
        have h2 : m.start + m.len - pos = (m.start + m.len - (pos + 1)) + 1 := by omega
        rw [h2, List.drop_succ_cons]

theorem execLoop_eq_scanAux (t : List Char) :
    ∀ (fuel li : Nat), (t.drop li).length + 1 ≤ fuel →
      execLoop t li fuel = scanAux (t.drop li) li := by
  intro fuel
  induction fuel with
  | zero => intro li h; omega
  | succ f ih =>
    intro li h
    rw [execLoop, scanAux_eq (t.drop li) li]
    unfold execFrom
    cases hf : findMatch (t.drop li) li with
    | none => simp
    | some m =>
      simp only []
      congr 1
      have h1 : li ≤ m.start := findMatch_start_ge hf
      have h2 : 0 < m.len := findMatch_len_pos hf
      have h3 : (t.drop li).drop (m.start + m.len - li) = t.drop (m.start + m.len) := by
        rw [List.drop_drop]
        congr 1
        omega
      rw [h3]
      have h5 : t.drop li ≠ [] := by
        intro heq
        rw [heq] at hf
        simp [findMatch] at hf
      have h6 : 0 < (t.drop li).length := List.length_pos.mpr h5
      rw [ih (m.start + m.len) ?_]
      simp only [List.length_drop] at h h6 ⊢
      omega

theorem scanJs_eq_scanAux (t : List Char) : scanJs t = scanAux t 0 := by
  have h := execLoop_eq_scanAux t (t.length + 1) 0 (by simp)
  simpa [scanJs] using h

/-! ## Scanning a single well-formed call -/

theorem scanJs_single (t : List Char) {q : Char} {n : List Char} {len : Nat}
    (hm : matchHere t = some (q, n, len)) (hlen : len = t.length) :
    scanJs t = [⟨q, n, 0, len⟩] := by
  have hpos : 0 < len := matchHere_len_pos hm
  unfold scanJs
  rw [execLoop]
  unfold execFrom
  rw [List.drop_zero, findMatch_of_matchHere 0 hm]
  simp only [Nat.zero_add]
  obtain ⟨f, hf⟩ : ∃ f, t.length = f + 1 := ⟨t.length - 1, by omega⟩
  rw [hf, execLoop]
  unfold execFrom
  have hdrop : t.drop len = [] := by
    rw [hlen]
    exact List.drop_length t
  rw [hdrop]
  simp [findMatch]

theorem scanJs_call (ws X : List Char) (q : Char)
    (hws : ∀ c ∈ ws, jsSpace c = true) (hq : isQuote q = true) (hX : X ≠ [])
    (hXq : ∀ c ∈ X, isQuote c = false) :
    scanJs (snippetLit ++ ws ++ q :: (X ++ [q, ')'])) =
      [⟨q, X, 0, 11 + ws.length + X.length⟩] := by
  have hm : matchHere (snippetLit ++ ws ++ q :: (X ++ [q, ')'])) =
      some (q, X, 8 + ws.length + 1 + X.length + 1 + 0 + 1) := by
    rw [List.append_assoc, matchHere_append]
    exact matchAfter_eq hws hq hX hXq (k := 0) (by decide)
  have hlen : 8 + ws.length + 1 + X.length + 1 + 0 + 1 =
      (snippetLit ++ ws ++ q :: (X ++ [q, ')'])).length := by
    simp [snippetLit]
    omega
  rw [scanJs_single _ hm hlen]
  have : 8 + ws.length + 1 + X.length + 1 + 0 + 1 = 11 + ws.length + X.length := by omega
  rw [this]

/-! ## Named example inputs used by the claims -/

/-- `snippet(test)` — no quotes at all. -/
def exMissingQuotes : List Char := snippetLit ++ ['t', 'e', 's', 't', ')']

/-- `snippet('unclosed` — opening quote never closed. -/
def exUnclosed : List Char := snippetLit ++ [sq, 'u', 'n', 'c', 'l', 'o', 's', 'e', 'd']

/-- `snippet('')` — zero-length name. -/
def exEmptyName : List Char := snippetLit ++ [sq, sq, ')']

/-- `snippet("x')` — mismatched quote characters. -/
def exMismatch : List Char := snippetLit ++ [dq, 'x', sq, ')']

/-- `snip('x')`. -/
def exSnip : List Char := ['s', 'n', 'i', 'p', '(', sq, 'x', sq, ')']

/-- `snippets('x')`. -/
def exSnippets : List Char := ['s', 'n', 'i', 'p', 'p', 'e', 't', 's', '(', sq, 'x', sq, ')']

/-- `mysnippet('x')`. -/
def exMySnippet : List Char := ['m', 'y'] ++ snippetLit ++ [sq, 'x', sq, ')']

/-- `snippet ('x')` — whitespace between the identifier and the parenthesis. -/
def exSpaceBeforeParen : List Char :=
  ['s', 'n', 'i', 'p', 'p', 'e', 't', ' ', '(', sq, 'x', sq, ')']

/-- `snippet('a'); snippet("b")`. -/
def exTwoCalls : List Char :=
  snippetLit ++ [sq, 'a', sq, ')', ';', ' '] ++ snippetLit ++ [dq, 'b', dq, ')']

/-- A generic helper: a text in which the literal `snippet(` never occurs
is scanned to no matches at all. -/
theorem matchHere_none_of_take {l : List Char} (h : l.take 8 ≠ snippetLit) :
    matchHere l = none := by
  unfold matchHere
  rw [if_neg h]

theorem findMatch_none {l : List Char} :
    ∀ pos : Nat, (∀ d, d < l.length → (l.drop d).take 8 ≠ snippetLit) →
      findMatch l pos = none := by
  induction l with
  | nil => intro pos h; simp [findMatch]
  | cons c rest ih =>
    intro pos h
    rw [findMatch]
    have h0 : matchHere (c :: rest) = none :=
      matchHere_none_of_take (by simpa using h 0 (by simp))
    rw [h0]
    exact ih (pos + 1) (fun d hd => by
      simpa [List.drop_succ_cons] using h (d + 1) (by simpa using hd))

theorem scanJs_eq_nil_of_no_lit {t : List Char}
    (h : ∀ d, d < t.length → (t.drop d).take 8 ≠ snippetLit) : scanJs t = [] := by
  unfold scanJs
  rw [execLoop]
  unfold execFrom
  rw [List.drop_zero, findMatch_none 0 h]

/-! ## The claims -/

/-- C1: for every non-empty name `X` containing no quote character,
scanning the input `snippet('X')` (or `snippet("X")`, `q` being the quote
used) yields exactly one Match, whose name is `X` and whose quote
character is `q`. -/
theorem c1_snippet_call_single_match (X : List Char) (q : Char) (hq : isQuote q = true)
    (hX : X ≠ []) (hXq : ∀ c ∈ X, isQuote c = false) :
    scanJs (snippetLit ++ q :: (X ++ [q, ')'])) = [⟨q, X, 0, 11 + X.length⟩] := by
  have h := scanJs_call [] X q (by simp) hq hX hXq
  simpa using h

theorem c1_snippet_call_single_match_witness :
    scanJs (snippetLit ++ sq :: (['a'] ++ [sq, ')'])) = [⟨sq, ['a'], 0, 12⟩] :=
  c1_snippet_call_single_match ['a'] sq (by decide) (by decide) (by decide)

/-- C2: every Match the scanner yields has a non-empty, quote-free name
delimited on both sides by one and the same quote character right after
the literal `snippet(` and optional whitespace — so an occurrence with
mismatched quotes, a missing or unclosed quote, or a zero-length name
yields no Match; in particular `snippet(test)`, `snippet('unclosed`,
`snippet('')` and `snippet("x')` scan to nothing. -/
theorem c2_malformed_never_matches (t : List Char) (m : SMatch) (h : m ∈ scanJs t) :
    (m.name ≠ [] ∧ isQuote m.quote = true ∧ (∀ c ∈ m.name, isQuote c = false) ∧
      ∃ ws tail, (∀ c ∈ ws, jsSpace c = true) ∧
        t.drop m.start = snippetLit ++ (ws ++ m.quote :: (m.name ++ m.quote :: tail))) ∧
    scanJs exMissingQuotes = [] ∧ scanJs exUnclosed = [] ∧
    scanJs exEmptyName = [] ∧ scanJs exMismatch = [] := by
  obtain ⟨ws, tail, k, hdrop, hws, hq, hne, hnq, -, -⟩ := matchHere_inv (scanJs_mem h)
  exact ⟨⟨hne, hq, hnq, ws, tail, hws, hdrop⟩, by decide, by decide, by decide, by decide⟩

theorem c2_malformed_never_matches_witness :
    ((['a'] : List Char) ≠ [] ∧ isQuote sq = true ∧ (∀ c ∈ (['a'] : List Char), isQuote c = false) ∧
      ∃ ws tail, (∀ c ∈ ws, jsSpace c = true) ∧
        (snippetLit ++ [sq, 'a', sq, ')']).drop 0 =
          snippetLit ++ (ws ++ sq :: (['a'] ++ sq :: tail))) ∧
    scanJs exMissingQuotes = [] ∧ scanJs exUnclosed = [] ∧
    scanJs exEmptyName = [] ∧ scanJs exMismatch = [] :=
  c2_malformed_never_matches (snippetLit ++ [sq, 'a', sq, ')']) ⟨sq, ['a'], 0, 12⟩ (by decide)

/-- C3 counterexample: the claim says `mysnippet('x')` yields no Match,
but the pattern is unanchored, so the scanner finds the embedded
`snippet('x')` at offset 2. -/
theorem c3_leading_identifier_counterexample :
    scanJs exMySnippet = [⟨sq, ['x'], 2, 12⟩] := by decide

/-- C3 (amended): a text in which the literal `snippet(` occurs nowhere —
in particular `snip('x')` or `snippets('x')` — yields no Match; but the
scanner matches any occurrence of the substring `snippet(`, regardless of
what precedes it, so `mysnippet('x')` yields the Match for the embedded
`snippet('x')` (name `x`, offset 2). -/
theorem c3_leading_identifier_amended (t : List Char)
    (h : ∀ d, d < t.length → (t.drop d).take 8 ≠ snippetLit) :
    scanJs t = [] ∧ scanJs exSnip = [] ∧ scanJs exSnippets = [] ∧
    scanJs exMySnippet = [⟨sq, ['x'], 2, 12⟩] :=
  ⟨scanJs_eq_nil_of_no_lit h, by decide, by decide, by decide⟩

theorem c3_leading_identifier_amended_witness :
    scanJs exSnip = [] ∧ scanJs exSnip = [] ∧ scanJs exSnippets = [] ∧
    scanJs exMySnippet = [⟨sq, ['x'], 2, 12⟩] :=
  c3_leading_identifier_amended exSnip (by decide)

/-- C4 counterexample: the claim says `snippet ('x')` (whitespace between
the identifier and the parenthesis) yields a Match with name `x`, but the
pattern only allows whitespace after the parenthesis, so it yields no
Match at all. -/
theorem c4_whitespace_counterexample : scanJs exSpaceBeforeParen = [] := by decide

/-- The identifier `snippet` alone (the pattern's literal without the
parenthesis): `snippetLit = identLit ++ ['(']`. -/
def identLit : List Char := ['s', 'n', 'i', 'p', 'p', 'e', 't']

/-- In `B ++ q :: (X ++ q :: [')'])` with `B` and `X` quote-free, a suffix
that begins with a quote character can only begin at one of the two quote
positions. -/
theorem quote_suffix_pos {B X Z : List Char} {q c : Char} {o : Nat}
    (hB : ∀ a ∈ B, isQuote a = false) (hX : ∀ a ∈ X, isQuote a = false)
    (hc : isQuote c = true)
    (h : (B ++ q :: (X ++ q :: [')'])).drop o = c :: Z) :
    o = B.length ∨ o = B.length + 1 + X.length := by
  rcases Nat.lt_trichotomy o B.length with ho | ho | ho
  · exfalso
    rw [List.drop_append_eq_append_drop] at h
    cases hBo : B.drop o with
    | nil =>
      have hlen := List.length_drop o B
      rw [hBo] at hlen
      simp at hlen
      omega
    | cons b B2 =>
      rw [hBo, List.cons_append] at h
      injection h with h1 h2
      have hbB : b ∈ B := List.mem_of_mem_drop (hBo ▸ List.mem_cons_self b B2)
      rw [h1] at hbB
      rw [hB c hbB] at hc
      exact Bool.false_ne_true hc
  · exact Or.inl ho
  · rw [List.drop_append_eq_append_drop, List.drop_eq_nil_of_le (by omega),
      List.nil_append] at h
    obtain ⟨j, hj⟩ : ∃ j, o - B.length = j + 1 := ⟨o - B.length - 1, by omega⟩
    rw [hj, List.drop_succ_cons] at h
    rcases Nat.lt_trichotomy j X.length with hjx | hjx | hjx
    · exfalso
      rw [List.drop_append_eq_append_drop] at h
      cases hXo : X.drop j with
      | nil =>
        have hlen := List.length_drop j X
        rw [hXo] at hlen
        simp at hlen
        omega
      | cons x X2 =>
        rw [hXo, List.cons_append] at h
        injection h with h1 h2
        have hxX : x ∈ X := List.mem_of_mem_drop (hXo ▸ List.mem_cons_self x X2)
        rw [h1] at hxX
        rw [hX c hxX] at hc
        exact Bool.false_ne_true hc
    · exact Or.inr (by omega)
    · exfalso
      rw [List.drop_append_eq_append_drop, List.drop_eq_nil_of_le (by omega),
        List.nil_append] at h
      obtain ⟨i, hi⟩ : ∃ i, j - X.length = i + 1 := ⟨j - X.length - 1, by omega⟩
      rw [hi, List.drop_succ_cons] at h
      cases i with
      | zero =>
        rw [List.drop_zero] at h
        injection h with h1 h2
        rw [← h1] at hc
        exact absurd hc (by decide)
      | succ i2 =>
        rw [show ([')'] : List Char).drop (i2 + 1) = [] from by simp] at h
        exact absurd h (by simp)

/-- With whitespace between the identifier and the parenthesis the
pattern never matches, whatever the name: a match would put its opening
quote at one of the two quote positions of the text, and either way the
eight characters `snippet(` the pattern needs before the quote would have
to overlap the whitespace run or the parenthesis. -/
theorem scanJs_space_before_paren (ws X : List Char) (q : Char) (hws : ws ≠ [])
    (hwss : ∀ c ∈ ws, jsSpace c = true) (_hq : isQuote q = true)
    (hX : ∀ c ∈ X, isQuote c = false) :
    scanJs (identLit ++ ws ++ '(' :: q :: (X ++ [q, ')'])) = [] := by
  rw [List.eq_nil_iff_forall_not_mem]
  intro m hm
  have hform : identLit ++ ws ++ '(' :: q :: (X ++ [q, ')']) =
      (identLit ++ ws ++ ['(']) ++ q :: (X ++ q :: [')']) := by
    simp [List.append_assoc]
  rw [hform] at hm
  set B : List Char := identLit ++ ws ++ ['('] with hBdef
  have hmh := scanJs_mem hm
  obtain ⟨ws', tail, k, hdrop, hws', hq', hne, hnq, hk, hlen⟩ := matchHere_inv hmh
  have hB : ∀ a ∈ B, isQuote a = false := by
    intro a ha
    rw [hBdef] at ha
    rcases List.mem_append.mp ha with ha | ha
    · rcases List.mem_append.mp ha with ha | ha
      · fin_cases ha <;> decide
      · cases hqa : isQuote a
        · rfl
        · exfalso
          have h1 := jsSpace_of_isQuote hqa
          rw [hwss a ha] at h1
          exact absurd h1 (by simp)
    · simp at ha
      subst ha
      decide
  have hBlen : B.length = 8 + ws.length := by
    rw [hBdef]
    simp [identLit]
    try omega
  have hdropo : (B ++ q :: (X ++ q :: [')'])).drop (m.start + (snippetLit ++ ws').length) =
      m.quote :: (m.name ++ m.quote :: tail) := by
    rw [← List.drop_drop, hdrop,
      show snippetLit ++ (ws' ++ m.quote :: (m.name ++ m.quote :: tail)) =
          (snippetLit ++ ws') ++ m.quote :: (m.name ++ m.quote :: tail) from by
        rw [List.append_assoc],
      List.drop_left]
  have hdrope : (B ++ q :: (X ++ q :: [')'])).drop
        (m.start + (snippetLit ++ ws').length + (m.name.length + 1)) =
      m.quote :: tail := by
    rw [← List.drop_drop, hdropo, List.drop_succ_cons, List.drop_left]
  have hoe := quote_suffix_pos hB hX hq' hdropo
  have he := quote_suffix_pos hB hX hq' hdrope
  have hn1 : 0 < m.name.length := List.length_pos.mpr hne
  rcases hoe with ho | ho
  · -- the opening quote sits at the first quote position
    rcases List.eq_nil_or_concat ws' with rfl | ⟨ws2, w, hw2⟩
    · -- no whitespace inside the match: `snippet(` would end at the
      -- opening quote, so its `t` would be the space before `(`
      have hstart : m.start + 8 = B.length := by
        simpa [snippetLit] using ho
      have ha : (B ++ q :: (X ++ q :: [')'])).drop (m.start + 6) =
          't' :: ('(' :: (m.quote :: (m.name ++ m.quote :: tail))) := by
        rw [← List.drop_drop, hdrop, List.drop_append_eq_append_drop]
        rfl
      rcases List.eq_nil_or_concat ws with rfl | ⟨ws0, w0, hw0⟩
      · exact hws rfl
      · rw [List.concat_eq_append] at hw0
        subst hw0
        have hb : (B ++ q :: (X ++ q :: [')'])).drop ((identLit ++ ws0).length) =
            w0 :: ('(' :: (q :: (X ++ q :: [')']))) := by
          rw [show B ++ q :: (X ++ q :: [')']) =
              (identLit ++ ws0) ++ (w0 :: ('(' :: (q :: (X ++ q :: [')'])))) from by
            rw [hBdef]
            simp [List.append_assoc], List.drop_left]
        have hpos : (identLit ++ ws0).length = m.start + 6 := by
          have h8 : B.length = 8 + (ws0.length + 1) := by
            rw [hBdef]
            simp [identLit]
            try omega
          simp [identLit]
          omega
        rw [hpos] at hb
        rw [hb] at ha
        injection ha with ha1 ha2
        have hsp := hwss w0 (by simp)
        rw [ha1] at hsp
        exact absurd hsp (by decide)
    · -- whitespace inside the match: its last character would be the `(`
      rw [List.concat_eq_append] at hw2
      subst hw2
      have hw : jsSpace w = true := hws' w (by simp)
      have ha : (B ++ q :: (X ++ q :: [')'])).drop (m.start + (snippetLit ++ ws2).length) =
          w :: (m.quote :: (m.name ++ m.quote :: tail)) := by
        rw [← List.drop_drop, hdrop,
          show snippetLit ++ ((ws2 ++ [w]) ++ m.quote :: (m.name ++ m.quote :: tail)) =
              (snippetLit ++ ws2) ++ (w :: (m.quote :: (m.name ++ m.quote :: tail))) from by
            simp [List.append_assoc],
          List.drop_left]
      have hb : (B ++ q :: (X ++ q :: [')'])).drop ((identLit ++ ws).length) =
          '(' :: (q :: (X ++ q :: [')'])) := by
        rw [show B ++ q :: (X ++ q :: [')']) =
            (identLit ++ ws) ++ ('(' :: (q :: (X ++ q :: [')']))) from by
          rw [hBdef]
          simp [List.append_assoc], List.drop_left]
      have hpos : m.start + (snippetLit ++ ws2).length = (identLit ++ ws).length := by
        have ho2 : m.start + (snippetLit ++ (ws2 ++ [w])).length = B.length := ho
        simp [snippetLit] at ho2
        rw [hBlen] at ho2
        simp [snippetLit, identLit]
        omega
      rw [hpos] at ha
      rw [hb] at ha
      injection ha with ha1 ha2
      rw [← ha1] at hw
      exact absurd hw (by decide)
  · -- the opening quote sits at the second quote position: the closing
    -- quote would have to lie beyond the final parenthesis
    rcases he with he | he <;> omega

/-- C4 (amended): whitespace is accepted after the opening parenthesis —
`snippet( 'X')` with any whitespace run `ws` yields the single Match with
name `X` — but never between the identifier and the parenthesis:
`snippet ('Y')` with any non-empty whitespace run before the parenthesis
yields no Match, for every quote-free name and either quote. -/
theorem c4_whitespace_amended (ws X : List Char) (q : Char)
    (hws : ∀ c ∈ ws, jsSpace c = true) (hq : isQuote q = true) (hX : X ≠ [])
    (hXq : ∀ c ∈ X, isQuote c = false) :
    scanJs (snippetLit ++ ws ++ q :: (X ++ [q, ')'])) =
        [⟨q, X, 0, 11 + ws.length + X.length⟩] ∧
      (∀ (ws2 Y : List Char) (r : Char), ws2 ≠ [] → (∀ c ∈ ws2, jsSpace c = true) →
        isQuote r = true → (∀ c ∈ Y, isQuote c = false) →
        scanJs (identLit ++ ws2 ++ '(' :: r :: (Y ++ [r, ')'])) = []) ∧
      scanJs exSpaceBeforeParen = [] :=
  ⟨scanJs_call ws X q hws hq hX hXq,
    fun ws2 Y r h1 h2 h3 h4 => scanJs_space_before_paren ws2 Y r h1 h2 h3 h4,
    by decide⟩

theorem c4_whitespace_amended_witness :
    scanJs (snippetLit ++ [' '] ++ sq :: (['x'] ++ [sq, ')'])) = [⟨sq, ['x'], 0, 13⟩] ∧
      (∀ (ws2 Y : List Char) (r : Char), ws2 ≠ [] → (∀ c ∈ ws2, jsSpace c = true) →
        isQuote r = true → (∀ c ∈ Y, isQuote c = false) →
        scanJs (identLit ++ ws2 ++ '(' :: r :: (Y ++ [r, ')'])) = []) ∧
      scanJs exSpaceBeforeParen = [] :=
  c4_whitespace_amended [' '] ['x'] sq (by decide) (by decide) (by decide) (by decide)

/-- C5: on every text the scanner's matches come in left-to-right order of
start offset and no two overlap (each match ends at or before the next
one's start); and `snippet('a'); snippet("b")` yields exactly the names
`a`, `b` in that order. -/
theorem c5_matches_ordered_disjoint (t : List Char) :
    List.Pairwise (fun a b => a.start + a.len ≤ b.start ∧ a.start < b.start) (scanJs t) ∧
    (scanJs exTwoCalls).map (fun m => m.name) = [['a'], ['b']] :=
  ⟨execLoop_pairwise t (t.length + 1) 0, by decide⟩

/-- C6: the scanner is stateless and deterministic — the stateful
`exec` loop run from a fresh regex (`lastIndex = 0`, any sufficient fuel)
computes the pure structural function `scanAux` of the document text
alone, and equals `scanJs`; hence two runs on the same text yield
identical sequences of Matches. -/
theorem c6_scanner_stateless (t : List Char) (fuel : Nat) (h : t.length + 1 ≤ fuel) :
    execLoop t 0 fuel = scanAux t 0 ∧ execLoop t 0 fuel = scanJs t := by
  have h1 : execLoop t 0 fuel = scanAux (t.drop 0) 0 :=
    execLoop_eq_scanAux t fuel 0 (by simpa using h)
  rw [List.drop_zero] at h1
  exact ⟨h1, by rw [h1, scanJs_eq_scanAux]⟩

theorem c6_scanner_stateless_witness :
    execLoop exTwoCalls 0 27 = scanAux exTwoCalls 0 ∧
      execLoop exTwoCalls 0 27 = scanJs exTwoCalls :=
  c6_scanner_stateless exTwoCalls 27 (by decide)

/-! ## Locating the name inside a match -/

theorem take_all_append_cons (A W : List Char) (q : Char) (r : Nat) :
    (A ++ q :: W).take (A.length + 1 + r) = A ++ q :: W.take r := by
  rw [List.take_append_eq_append_take, List.take_of_length_le (by omega)]
  congr 1
  have h : A.length + 1 + r - A.length = r + 1 := by omega
  rw [h, List.take_succ_cons]

theorem drop_all_append_cons (A W : List Char) (q : Char) :
    (A ++ q :: W).drop (A.length + 1) = W := by
  have h := List.drop_drop 1 A.length (A ++ q :: W)
  rw [← h, List.drop_left]
  rfl

theorem no_quote_in_prefix {q : Char} (hq : isQuote q = true) {ws : List Char}
    (hws : ∀ c ∈ ws, jsSpace c = true) :
    ∀ c ∈ snippetLit ++ ws, (c == q) = false := by
  intro c hc
  rcases List.mem_append.mp hc with h | h
  · exact snippetLit_no_quote hq c h
  · have hs := hws c h
    cases hcb : c == q
    · rfl
    · exfalso
      have hcq : c = q := eq_of_beq hcb
      subst hcq
      rw [jsSpace_of_isQuote hq] at hs
      exact Bool.false_ne_true hs

theorem getSnippetUri_inv {env : Env} {s : String} {uri : Uri}
    (h : getSnippetUri env s = some uri) :
    ∃ wf sp, env.workspaceFolders.head? = some wf ∧ env.snippetPath = some sp ∧ sp ≠ "" ∧
      uri = wf ++ [sp, s ++ ".php"] := by
  unfold getSnippetUri at h
  split at h
  next w s hw hs =>
    split at h
    case isTrue => exact absurd h (by simp)
    case isFalse hsp =>
      simp only [Option.some.injEq] at h
      exact ⟨w, s, hw, hs, hsp, h.symm⟩
  next => exact absurd h (by simp)

/-- An example host state, document and link used by the witnesses. -/
def envExample : Env := ⟨[["root"]], some "snippets"⟩

def textExample : List Char := snippetLit ++ [sq, 'a', sq, ')']

def linkExample : DocumentLink := ⟨(9, 10), ["root", "snippets", "a.php"], "Open snippet: a.php"⟩

/-- C7: every link the provider reports targets
`<first workspace folder>/<configured snippetPath>/<name>.php`, and its
range covers exactly the characters of the name — the text under the
range is the name, and the characters immediately before and after the
range are the two quote characters. -/
theorem c7_link_target_and_range (env : Env) (text : List Char) (link : DocumentLink)
    (h : link ∈ provideDocumentLinks env text) :
    ∃ m wf sp, m ∈ scanJs text ∧ env.workspaceFolders.head? = some wf ∧
      env.snippetPath = some sp ∧ sp ≠ "" ∧
      link.target = wf ++ [sp, String.mk m.name ++ ".php"] ∧
      link.range.2 = link.range.1 + m.name.length ∧
      (text.drop link.range.1).take m.name.length = m.name ∧
      0 < link.range.1 ∧
      (text.drop (link.range.1 - 1)).head? = some m.quote ∧
      (text.drop link.range.2).head? = some m.quote := by
  obtain ⟨m, hmem, hlink⟩ := List.mem_filterMap.mp h
  have hmh := scanJs_mem hmem
  obtain ⟨ws, tail, k, hdrop, hws, hq, hne, hnq, hk, hlen⟩ := matchHere_inv hmh
  unfold createDocumentLink at hlink
  cases hu : getSnippetUri env (String.mk m.name) with
  | none => rw [hu] at hlink; exact absurd hlink (by simp)
  | some uri =>
    rw [hu] at hlink
    simp only [Option.some.injEq] at hlink
    obtain ⟨wf, sp, hwf, hsp, hspne, huri⟩ := getSnippetUri_inv hu
    subst hlink
    have hdropA : text.drop m.start =
        (snippetLit ++ ws) ++ m.quote :: (m.name ++ m.quote :: tail) := by
      rw [hdrop, List.append_assoc]
    have hAq : ∀ c ∈ snippetLit ++ ws, (c == m.quote) = false := no_quote_in_prefix hq hws
    have hAlen : (snippetLit ++ ws).length = 8 + ws.length := by
      simp [snippetLit]
      omega
    have hklt : k < tail.length := firstIdx_lt_length hk
    have hmlen : m.len = (snippetLit ++ ws).length + 1 + (m.name.length + 1 + k + 1) := by
      rw [hAlen]
      omega
    have htake : (text.drop m.start).take m.len =
        (snippetLit ++ ws) ++ m.quote :: ((m.name ++ m.quote :: tail).take
          (m.name.length + 1 + k + 1)) := by
      rw [hdropA, hmlen, take_all_append_cons]
    have hfi : firstIdx (fun c => c == m.quote) ((text.drop m.start).take m.len) =
        some (snippetLit ++ ws).length := by
      rw [htake, firstIdx_append _ hAq, firstIdx_cons_self (by simp) _]
      simp
    have hrange : getSnippetNameRange text m =
        (m.start + (snippetLit ++ ws).length + 1,
          m.start + (snippetLit ++ ws).length + 1 + m.name.length) := by
      unfold getSnippetNameRange
      rw [hfi]
    have hD : ∀ j, text.drop (m.start + j) = (text.drop m.start).drop j := by
      intro j
      rw [List.drop_drop]
    have hdropQ : text.drop (m.start + (snippetLit ++ ws).length) =
        m.quote :: (m.name ++ m.quote :: tail) := by
      rw [hD, hdropA, List.drop_left]
    have hdropName : text.drop (m.start + (snippetLit ++ ws).length + 1) =
        m.name ++ m.quote :: tail := by
      have h1 : m.start + (snippetLit ++ ws).length + 1 =
          m.start + ((snippetLit ++ ws).length + 1) := by omega
      rw [h1, hD, hdropA, drop_all_append_cons]
    have hdropEnd : text.drop (m.start + (snippetLit ++ ws).length + 1 + m.name.length) =
        m.quote :: tail := by
      have h1 : m.start + (snippetLit ++ ws).length + 1 + m.name.length =
          (m.start + (snippetLit ++ ws).length + 1) + m.name.length := by omega
      have h2 := List.drop_drop m.name.length (m.start + (snippetLit ++ ws).length + 1) text
      rw [h1, ← h2, hdropName, List.drop_left]
    refine ⟨m, wf, sp, hmem, hwf, hsp, hspne, ?_, ?_, ?_, ?_, ?_, ?_⟩
    · simpa using huri
    · simp [hrange]
    · simp only [hrange]
      rw [hdropName, List.take_left]
    · simp only [hrange]
      omega
    · simp only [hrange]
      have h1 : m.start + (snippetLit ++ ws).length + 1 - 1 =
          m.start + (snippetLit ++ ws).length := by omega
      rw [h1, hdropQ]
      rfl
    · simp only [hrange]
      rw [hdropEnd]
      rfl

theorem c7_link_target_and_range_witness :
    ∃ m wf sp, m ∈ scanJs textExample ∧ envExample.workspaceFolders.head? = some wf ∧
      envExample.snippetPath = some sp ∧ sp ≠ "" ∧
      linkExample.target = wf ++ [sp, String.mk m.name ++ ".php"] ∧
      linkExample.range.2 = linkExample.range.1 + m.name.length ∧
      (textExample.drop linkExample.range.1).take m.name.length = m.name ∧
      0 < linkExample.range.1 ∧
      (textExample.drop (linkExample.range.1 - 1)).head? = some m.quote ∧
      (textExample.drop linkExample.range.2).head? = some m.quote :=
  c7_link_target_and_range envExample textExample linkExample (by decide)

/-! ## The open and create commands -/

/-- Whether an effect is the (single) attempt to open the target file. -/
def isAttempt : OpenEffect → Bool
  | .attemptedOpen _ => true
  | _ => false

/-- Host state without any workspace folder. -/
def envNoFolder : Env := ⟨[], some "snippets"⟩

/-- Host state with a workspace folder but no configured snippet path. -/
def envNoConfig : Env := ⟨[["root"]], none⟩

/-- An editor whose whole two-character document is selected. -/
def editorExample : Editor := ⟨['x', 'y'], 0, 2⟩

/-- C8: when opening the target file fails, the open-snippet command shows
the error message naming `<name>.php`, makes exactly one open attempt (no
retry), and completes (the model is a total function: the catch swallows
the failure). -/
theorem c8_open_failure_shows_error (env : Env) (name : String) (uri : Uri)
    (h : getSnippetUri env name = some uri) :
    openSnippetCommand env name false =
        [.attemptedOpen uri,
          .showedErrorMessage ("Snippet " ++ name ++ ".php konnte nicht gefunden werden.")] ∧
      (openSnippetCommand env name false).countP isAttempt = 1 := by
  have h1 : openSnippetCommand env name false =
      [.attemptedOpen uri,
        .showedErrorMessage ("Snippet " ++ name ++ ".php konnte nicht gefunden werden.")] := by
    unfold openSnippetCommand
    rw [h]
    rfl
  refine ⟨h1, ?_⟩
  rw [h1]
  rfl

theorem c8_open_failure_shows_error_witness :
    openSnippetCommand envExample "a" false =
        [.attemptedOpen ["root", "snippets", "a.php"],
          .showedErrorMessage ("Snippet " ++ "a" ++ ".php konnte nicht gefunden werden.")] ∧
      (openSnippetCommand envExample "a" false).countP isAttempt = 1 :=
  c8_open_failure_shows_error envExample "a" ["root", "snippets", "a.php"] (by decide)

/-- C10: without a workspace folder or without a (truthy) configured
snippet path, the open-snippet command does nothing at all for every
snippet name: no open attempt, no document, no message. -/
theorem c10_open_unconfigured_silent (env : Env) (name : String) (b : Bool)
    (h : env.workspaceFolders = [] ∨ env.snippetPath = none ∨ env.snippetPath = some "") :
    openSnippetCommand env name b = [] := by
  have hu : getSnippetUri env name = none := by
    unfold getSnippetUri
    rcases h with h | h | h
    · rw [h]
      rfl
    · cases hw : env.workspaceFolders.head? <;> simp [h]
    · cases hw : env.workspaceFolders.head? <;> simp [h]
  unfold openSnippetCommand
  rw [hu]

theorem c10_open_unconfigured_silent_witness :
    openSnippetCommand envNoFolder "a" false = [] :=
  c10_open_unconfigured_silent envNoFolder "a" false (Or.inl rfl)

/-- The creation command never touches the document unless the snippet
file was created: every outcome with `fileCreated = false` keeps the
original text. -/
theorem createCommand_unchanged_of_not_created (env : Env) (ed : Option Editor)
    (pr : Option String) (w : Bool) (e : String)
    (h : (createSnippetFromSelectionCommand env ed pr w e).fileCreated = false) :
    (createSnippetFromSelectionCommand env ed pr w e).finalDoc = ed.map Editor.text := by
  revert h
  unfold createSnippetFromSelectionCommand
  cases ed with
  | none => simp
  | some e0 =>
    simp only [Option.map_some]
    repeat' split
    all_goals simp

/-- `createSnippetFile` fails with a message whenever the path is not
configured, the workspace is empty, or the write fails. -/
theorem createSnippetFile_fail (env : Env) (p : String) (w : Bool) (e : String)
    (h : truthyStr env.snippetPath = false ∨ env.workspaceFolders = [] ∨ w = false) :
    (createSnippetFile env p w e).ok = false ∧ (createSnippetFile env p w e).messages ≠ [] := by
  unfold createSnippetFile
  rcases h with h | h | h
  · rw [if_pos h]
    simp
  · by_cases hc : truthyStr env.snippetPath = false
    · rw [if_pos hc]
      simp
    · rw [if_neg hc, h]
      simp
  · by_cases hc : truthyStr env.snippetPath = false
    · rw [if_pos hc]
      simp
    · rw [if_neg hc]
      cases hw : env.workspaceFolders.head? with
      | none => simp
      | some wf =>
        subst h
        simp

/-- C9 counterexample: with no configured snippet path, an active editor
with a selection, and the path prompt cancelled, the command shows no
message at all — the claim promises a user-visible message whenever no
snippet path is configured. -/
theorem c9_create_silent_counterexample :
    truthyStr envNoConfig.snippetPath = false ∧
      (createSnippetFromSelectionCommand envNoConfig (some editorExample) none true
          "e").messages = [] ∧
      (createSnippetFromSelectionCommand envNoConfig (some editorExample) none true
          "e").finalDoc = some editorExample.text := by
  decide

/-- Once past the editor and selection checks, a cancelled prompt
(`undefined`) or an empty entry (`""`, falsy) makes the command return
silently: no message, the document untouched, no file created. -/
theorem createCommand_prompt_aborted (env : Env) (ed : Editor) (pr : Option String)
    (w : Bool) (e : String) (hsel : selectedText ed ≠ []) (hpr : pr = none ∨ pr = some "") :
    createSnippetFromSelectionCommand env (some ed) pr w e = ⟨[], some ed.text, false⟩ := by
  rcases hpr with rfl | rfl <;> simp [createSnippetFromSelectionCommand, hsel]

/-- C9 (amended): provided the user completes the snippet-path prompt with
a non-empty path, each error condition — no active editor, no selected
text, no configured snippet path, no workspace folder, failed write —
shows a user-visible message and leaves the document text unchanged;
a cancelled or empty prompt instead aborts silently (no message, document
unchanged, no file created), for every host state, editor with a
selection, and write outcome; and on every input whatsoever the selection
is replaced only after the snippet file was created successfully. -/
theorem c9_create_atomic_amended (env : Env) (editor : Option Editor) (p e : String)
    (w : Bool) (hp : p ≠ "")
    (h : editor = none ∨ (∃ ed, editor = some ed ∧ selectedText ed = []) ∨
      truthyStr env.snippetPath = false ∨ env.workspaceFolders = [] ∨ w = false) :
    (createSnippetFromSelectionCommand env editor (some p) w e).messages ≠ [] ∧
      (createSnippetFromSelectionCommand env editor (some p) w e).finalDoc =
        editor.map Editor.text ∧
      (∀ (env2 : Env) (ed2 : Editor) (pr : Option String) (w2 : Bool) (e2 : String),
        selectedText ed2 ≠ [] → (pr = none ∨ pr = some "") →
        createSnippetFromSelectionCommand env2 (some ed2) pr w2 e2 =
          ⟨[], some ed2.text, false⟩) ∧
      ∀ (env2 : Env) (ed2 : Option Editor) (pr : Option String) (w2 : Bool) (e2 : String),
        (createSnippetFromSelectionCommand env2 ed2 pr w2 e2).fileCreated = false →
        (createSnippetFromSelectionCommand env2 ed2 pr w2 e2).finalDoc = ed2.map Editor.text := by
  refine ⟨?_, ?_,
    fun env2 ed2 pr w2 e2 hs hpr => createCommand_prompt_aborted env2 ed2 pr w2 e2 hs hpr,
    fun env2 ed2 pr w2 e2 hf =>
      createCommand_unchanged_of_not_created env2 ed2 pr w2 e2 hf⟩ <;>
  · cases editor with
    | none => simp [createSnippetFromSelectionCommand]
    | some ed =>
      by_cases hsel : selectedText ed = []
      · simp [createSnippetFromSelectionCommand, hsel]
      · have hfail : (createSnippetFile env p w e).ok = false ∧
            (createSnippetFile env p w e).messages ≠ [] := by
          apply createSnippetFile_fail
          rcases h with h | ⟨ed2, hed2, hsel2⟩ | h | h | h
          · exact absurd h (by simp)
          · rw [Option.some.injEq] at hed2
            subst hed2
            exact absurd hsel2 hsel
          · exact Or.inl h
          · exact Or.inr (Or.inl h)
          · exact Or.inr (Or.inr h)
        obtain ⟨hok, hmsg⟩ := hfail
        cases hcf : createSnippetFile env p w e with
        | mk ok msgs =>
          rw [hcf] at hok hmsg
          simp only at hok
          subst hok
          have hmsg2 : msgs ≠ [] := by simpa using hmsg
          simp [createSnippetFromSelectionCommand, hsel, hp, hcf, hmsg2]

theorem c9_create_atomic_amended_witness :
    (createSnippetFromSelectionCommand envNoConfig (some editorExample) (some "card") true
        "e").messages ≠ [] ∧
      (createSnippetFromSelectionCommand envNoConfig (some editorExample) (some "card") true
          "e").finalDoc = (some editorExample).map Editor.text ∧
      (∀ (env2 : Env) (ed2 : Editor) (pr : Option String) (w2 : Bool) (e2 : String),
        selectedText ed2 ≠ [] → (pr = none ∨ pr = some "") →
        createSnippetFromSelectionCommand env2 (some ed2) pr w2 e2 =
          ⟨[], some ed2.text, false⟩) ∧
      ∀ (env2 : Env) (ed2 : Option Editor) (pr : Option String) (w2 : Bool) (e2 : String),
        (createSnippetFromSelectionCommand env2 ed2 pr w2 e2).fileCreated = false →
        (createSnippetFromSelectionCommand env2 ed2 pr w2 e2).finalDoc = ed2.map Editor.text :=
  c9_create_atomic_amended envNoConfig (some editorExample) "card" "e" true (by decide)
    (Or.inr (Or.inr (Or.inl (by decide))))

end KirbySnippetOpener
